import Mathlib

/-!
Verification development for `my_module/image_processing.py`.

The Python module implements a three-stage image pipeline:
`_gaussian_kernel1d` (kernel builder), `_apply_separable_conv2d`
(separable row-then-column convolution via `np.convolve(·, ·, mode="same")`),
and `process_image` (validation, min-max normalization, per-channel filtering).

Shallow embedding choices:
* 32-bit floats are modelled as real numbers (`ℝ`); consequently `np.isfinite`
  is identically true and `np.nanmin`/`np.nanmax` coincide with plain list
  minimum/maximum (there is no NaN or infinity in `ℝ`).
* numpy arrays are nested lists; a numpy ndarray is always rectangular, which
  here becomes an explicit hypothesis where a proof needs it.
* Python exceptions become `Except PyErr`; `PyErr` records the Python
  exception class and message.
-/

namespace ImgProc

/-- Zero-padded indexed read of a 1D signal: `signal[i]` for `0 ≤ i < N`,
and `0` for any index outside the signal (the zero-extension both numpy's
full convolution and the spec's zero-padding use). -/
noncomputable def getZ (a : List ℝ) (i : ℤ) : ℝ :=
  if 0 ≤ i then a.getD i.toNat 0 else 0

/-- Start offset of the window numpy's `np.convolve(a, v, mode="same")` cuts
out of the full convolution: `(min(M, N) - 1) // 2`. -/
def sameStart (n k : ℕ) : ℕ := (min n k - 1) / 2

/-- Element `i` of `np.convolve(a, v, mode="same")`: the full (kernel-flipping)
convolution `full[n] = ∑ₖ v[k] * a[n-k]` sampled at `n = i + sameStart`. -/
noncomputable def convSameElem (a v : List ℝ) (i : ℕ) : ℝ :=
  ∑ k ∈ Finset.range v.length,
    v.getD k 0 * getZ a ((i : ℤ) + (sameStart a.length v.length : ℤ) - (k : ℤ))

/-- Embedding of `np.convolve(a, v, mode="same")`: output length `max(M, N)` (the numpy
documented behavior — note this exceeds the signal length when the kernel is
longer than the signal). -/
noncomputable def convSame (a v : List ℝ) : List ℝ :=
  (List.range (max a.length v.length)).map (convSameElem a v)

/-- Row count is `List.length`; `width` is the length of the first row
(`shape[1]` of a rectangular numpy 2D array). -/
def width (m : List (List ℝ)) : ℕ := (m.headD []).length

/-- Column `j` of a 2D array (zero-filled past ragged rows; a numpy array is
always rectangular so the default is never consulted on valid data). -/
noncomputable def col (m : List (List ℝ)) (j : ℕ) : List ℝ :=
  m.map (fun r => r.getD j 0)

/-- Embedding of `np.apply_along_axis(lambda m: np.convolve(m, v, mode="same"), axis=0, arr)`:
each column is convolved as an independent 1D signal and the results are
restacked as columns.  Each column has length `arr.length`, so the output has
`max(arr.length, v.length)` rows and `width arr` columns. -/
noncomputable def convAxis0 (m : List (List ℝ)) (v : List ℝ) : List (List ℝ) :=
  (List.range (max m.length v.length)).map (fun i =>
    (List.range (width m)).map (fun j => convSameElem (col m j) v i))

/-- Embedding of `_apply_separable_conv2d`: convolve every row (axis 1), then every column
(axis 0) of the row-pass result. -/
noncomputable def applySeparableConv2d (img2d : List (List ℝ)) (kernel : List ℝ) :
    List (List ℝ) :=
  convAxis0 (img2d.map (fun r => convSame r kernel)) kernel

/-- Modelled from the spec: element `i` of a same-size zero-padded centered 1D
pass, `out[i] = ∑ₖ signal[i - K/2 + k] * kernel[k]` with out-of-range signal
indices read as zero. -/
noncomputable def specConvElem (a v : List ℝ) (i : ℕ) : ℝ :=
  ∑ k ∈ Finset.range v.length,
    getZ a ((i : ℤ) - (v.length / 2 : ℕ) + (k : ℤ)) * v.getD k 0

/-- Modelled from the spec: a same-size 1D pass has output length equal to the
signal length. -/
noncomputable def specConv1d (a v : List ℝ) : List ℝ :=
  (List.range a.length).map (specConvElem a v)

/-- Modelled from the spec: the column pass applied to every column, output of
the same shape as its input. -/
noncomputable def specAxis0 (m : List (List ℝ)) (v : List ℝ) : List (List ℝ) :=
  (List.range m.length).map (fun i =>
    (List.range (width m)).map (fun j => specConvElem (col m j) v i))

/-- Modelled from the spec: the composition of two same-size zero-padded
centered 1D passes, first each row, then each column of the row-pass result. -/
noncomputable def specSeparableConv2d (img2d : List (List ℝ)) (kernel : List ℝ) :
    List (List ℝ) :=
  specAxis0 (img2d.map (fun r => specConv1d r kernel)) kernel

/-- The unnormalized Gaussian samples of `_gaussian_kernel1d`:
`np.exp(-(x*x) / (2.0*sigma*sigma))` at `x = np.arange(-radius, radius+1)`
with `radius = int(np.ceil(3*sigma))`; sample `k` is at offset `k - radius`. -/
noncomputable def gaussRaw (σ : ℝ) : List ℝ :=
  (List.range (2 * ⌈(3 : ℝ) * σ⌉₊ + 1)).map (fun (k : ℕ) =>
    Real.exp (-((((k : ℝ) - (⌈(3 : ℝ) * σ⌉₊ : ℝ)) * ((k : ℝ) - (⌈(3 : ℝ) * σ⌉₊ : ℝ)))
      / (2 * σ * σ))))

/-- Embedding of `_gaussian_kernel1d`: `[1.0]` when `sigma <= 0 or np.isclose(sigma, 0.0)`
(`np.isclose(s, 0.0)` is `|s| ≤ 1e-8`, the default absolute tolerance, since
the relative-tolerance term vanishes against `0.0`); `[1.0]` again on a zero
kernel sum; otherwise the Gaussian samples divided by their sum. -/
noncomputable def gaussianKernel1d (σ : ℝ) : List ℝ :=
  if σ ≤ 0 ∨ |σ| ≤ 1e-8 then [1]
  else if (gaussRaw σ).sum = 0 then [1]
  else (gaussRaw σ).map (fun t => t / (gaussRaw σ).sum)

/-- Python exception classes raised by `process_image`. -/
inductive ErrKind where
  | typeErr
  | valueErr
deriving DecidableEq, Repr

/-- A raised Python exception: class plus message. -/
structure PyErr where
  kind : ErrKind
  msg : String
deriving DecidableEq, Repr

/-- The error of `raise ValueError("img must be 2D (H,W) or 3D (H,W,C) with channels last")`. -/
def shapeErr : PyErr := ⟨.valueErr, "img must be 2D (H,W) or 3D (H,W,C) with channels last"⟩

/-- The error of `raise ValueError("filter_sigma must be non-negative")`. -/
def sigmaErr : PyErr := ⟨.valueErr, "filter_sigma must be non-negative"⟩

/-- The `ValueError` numpy raises when `out[:, :, c] = ...` receives a plane
whose shape does not match the destination slice. -/
def broadcastErr : PyErr := ⟨.valueErr, "could not broadcast input array"⟩

/-- A numpy ndarray of real scalars.  Ranks 0–3 carry their nested data; for
rank ≥ 4 the pipeline rejects the array before ever touching its elements, so
only the rank is carried. -/
inductive NPArray where
  | r0 (x : ℝ)
  | r1 (v : List ℝ)
  | r2 (m : List (List ℝ))
  | r3 (t : List (List (List ℝ)))
  | rOther (n : ℕ)

/-- The rank `ndarray.ndim`. -/
def NPArray.ndim : NPArray → ℕ
  | .r0 _ => 0
  | .r1 _ => 1
  | .r2 _ => 2
  | .r3 _ => 3
  | .rOther n => n + 4

/-- All elements of the array, row-major (the order `np.nanmin`/`np.nanmax`
reduce over; only membership and extrema of this list ever matter). -/
def flattenNP : NPArray → List ℝ
  | .r0 x => [x]
  | .r1 v => v
  | .r2 m => m.flatten
  | .r3 t => (t.map List.flatten).flatten
  | .rOther _ => []

/-- Elementwise map over an ndarray (shape-preserving, as all numpy ufunc
arithmetic on a single array is). -/
def mapNP (f : ℝ → ℝ) : NPArray → NPArray
  | .r0 x => .r0 (f x)
  | .r1 v => .r1 (v.map f)
  | .r2 m => .r2 (m.map (List.map f))
  | .r3 t => .r3 (t.map (List.map (List.map f)))
  | .rOther n => .rOther n

/-- Component `shape[2]` of a rank-3 array: the length of the first pixel. -/
def channels (t : List (List (List ℝ))) : ℕ := ((t.headD []).headD []).length

/-- Component `shape[1]` of a rank-3 array: the length of the first row. -/
def width3 (t : List (List (List ℝ))) : ℕ := (t.headD []).length

/-- The tuple `ndarray.shape` (read off the nested-list structure; meaningful for
rectangular data, which every real numpy array is). -/
def shapeNP : NPArray → List ℕ
  | .r0 _ => []
  | .r1 v => [v.length]
  | .r2 m => [m.length, width m]
  | .r3 t => [t.length, width3 t, channels t]
  | .rOther n => List.replicate (n + 4) 0

/-- Minimum of a list of reals; `np.nanmin` of a nonempty all-finite array.
(`np.nanmin` of an empty array raises; valid images have positive height and
width, so the `[]` case is never reached on valid input.) -/
noncomputable def listMin : List ℝ → ℝ
  | [] => 0
  | x :: xs => xs.foldl min x

/-- Maximum of a list of reals; `np.nanmax` of a nonempty all-finite array. -/
noncomputable def listMax : List ℝ → ℝ
  | [] => 0
  | x :: xs => xs.foldl max x

/-- Lines 79–86 of `process_image`: min-max normalization.  In the real-number
model every value is finite, so the code's `np.isfinite(minv) and
np.isfinite(maxv)` guard is identically true and the branch condition reduces
to `maxv > minv`; the degenerate branch is `np.zeros_like(img_f)`. -/
noncomputable def normalizeArr (img : NPArray) : NPArray :=
  let minv := listMin (flattenNP img)
  let maxv := listMax (flattenNP img)
  if maxv > minv then mapNP (fun v => (v - minv) / (maxv - minv)) img
  else mapNP (fun _ => 0) img

/-- Channel slice `img_f[:, :, c]` of a rank-3 array. -/
noncomputable def channelSlice (t : List (List (List ℝ))) (c : ℕ) : List (List ℝ) :=
  t.map (fun row => row.map (fun px => px.getD c 0))

/-- Reassemble per-channel planes into an `H × W × C` array: the effect of the
loop `out[:, :, c] = ...` over `c in range(C)` on `np.empty_like(img_f)`,
once every plane has been checked to fit its destination slice. -/
noncomputable def stackChannels (H W : ℕ) (planes : List (List (List ℝ))) :
    List (List (List ℝ)) :=
  (List.range H).map (fun i =>
    (List.range W).map (fun j => planes.map (fun p => (p.getD i []).getD j 0)))

/-- Lines 95–98 of `process_image`: per-channel filtering of a rank-3 array.
Numpy's slice assignment `out[:, :, c] = plane` raises a broadcast
`ValueError` unless the plane's shape equals the `(H, W)` destination slice,
which is exactly the check made here. -/
noncomputable def filterRank3 (t : List (List (List ℝ))) (kernel : List ℝ) :
    Except PyErr (List (List (List ℝ))) :=
  let planes := (List.range (channels t)).map
    (fun c => applySeparableConv2d (channelSlice t c) kernel)
  if planes.all (fun p => p.length == t.length && p.all (fun r => r.length == width3 t))
  then .ok (stackChannels t.length (width3 t) planes)
  else .error broadcastErr

open Classical in
/-- Embedding of `process_image(img, normalize, filter_sigma)`.

Faithful points: the rank check (line 66) raises `ValueError` (the code has no
separate ShapeError class); `filter_sigma=None` becomes `0.0` (line 69); the
negative-sigma check (line 72) precedes all numeric work; `astype(np.float32,
copy=True)` and the final `astype(np.float32)` are the identity on real-valued
data; line 89's `if filter_sigma and (filter_sigma > 0)` tests Python
truthiness (`σ ≠ 0`) and positivity. -/
noncomputable def processImage (img : NPArray) (normalize : Bool)
    (filterSigma : Option ℝ) : Except PyErr NPArray :=
  if img.ndim ≠ 2 ∧ img.ndim ≠ 3 then .error shapeErr
  else
    let σ := filterSigma.getD 0
    if σ < 0 then .error sigmaErr
    else
      let imgN := if normalize then normalizeArr img else img
      if σ ≠ 0 ∧ 0 < σ then
        let kernel := gaussianKernel1d σ
        match imgN with
        | .r2 m => .ok (.r2 (applySeparableConv2d m kernel))
        | .r3 t => (filterRank3 t kernel).map .r3
        | a => .ok a
      else .ok imgN

/-- Flattened elements of a pipeline result (empty on failure). -/
def resultFlatten : Except PyErr NPArray → List ℝ
  | .ok a => flattenNP a
  | .error _ => []

/-- Shape of a pipeline result (empty on failure). -/
def resultShape : Except PyErr NPArray → List ℕ
  | .ok a => shapeNP a
  | .error _ => []

/-- Value of a successful computation, or a default on failure. -/
def okOr {α : Type*} : Except PyErr α → α → α
  | .ok x, _ => x
  | .error _, d => d

/-- The structural invariant every genuine numpy array satisfies: positive
height and width and rectangular nesting (rank 2 and 3; other ranks carry no
data the pipeline would read). -/
def wellFormedNP : NPArray → Prop
  | .r2 m => 0 < m.length ∧ 0 < width m ∧ ∀ r ∈ m, r.length = width m
  | .r3 t => 0 < t.length ∧ 0 < width3 t ∧ (∀ row ∈ t, row.length = width3 t) ∧
      (∀ row ∈ t, ∀ px ∈ row, px.length = channels t)
  | _ => True

/-! ### List helpers -/

lemma getD_range_map {α : Type*} (f : ℕ → α) (d : α) (n k : ℕ) (hk : k < n) :
    ((List.range n).map f).getD k d = f k := by
  simp [List.getD_eq_getElem?_getD, List.getElem?_map, List.getElem?_range, hk]

lemma getD_map_list {α β : Type*} (g : α → β) (m : List α) (dα : α) (dβ : β)
    (i : ℕ) (hi : i < m.length) :
    (m.map g).getD i dβ = g (m.getD i dα) := by
  simp [List.getD_eq_getElem?_getD, List.getElem?_map, List.getElem?_eq_getElem hi]

lemma getD_eq_getElem_of_lt {α : Type*} (l : List α) (d : α) (i : ℕ)
    (hi : i < l.length) : l.getD i d = l[i] := by
  simp [List.getD_eq_getElem?_getD, List.getElem?_eq_getElem hi]

lemma getD_mem {α : Type*} (l : List α) (d : α) (i : ℕ) (hi : i < l.length) :
    l.getD i d ∈ l := by
  rw [getD_eq_getElem_of_lt l d i hi]
  exact List.getElem_mem hi

lemma list_reconstruct {α : Type*} (l : List α) (d : α) :
    (List.range l.length).map (fun i => l.getD i d) = l := by
  apply List.ext_getElem (by simp)
  intro i h1 h2
  simp [List.getD_eq_getElem?_getD, List.getElem?_eq_getElem h2]

lemma list_sum_div (l : List ℝ) (c : ℝ) :
    (l.map (fun t => t / c)).sum = l.sum / c := by
  induction l with
  | nil => simp
  | cons x xs ih => simp [ih, add_div]

/-! ### 1D convolution lemmas -/

lemma length_convSame (a v : List ℝ) :
    (convSame a v).length = max a.length v.length := by
  simp [convSame]

lemma length_specConv1d (a v : List ℝ) :
    (specConv1d a v).length = a.length := by
  simp [specConv1d]

lemma convSameElem_one (a : List ℝ) (i : ℕ) :
    convSameElem a [1] i = a.getD i 0 := by
  have hs : sameStart a.length 1 = 0 := by
    unfold sameStart; omega
  simp [convSameElem, hs, getZ]

lemma convSame_one (a : List ℝ) (h : a ≠ []) : convSame a [1] = a := by
  have hl : max a.length (1 : ℕ) = a.length := by
    have := List.length_pos.mpr h
    omega
  unfold convSame
  rw [show ([(1 : ℝ)]).length = 1 from rfl, hl]
  rw [List.map_congr_left (fun i _ => convSameElem_one a i)]
  exact list_reconstruct a 0

lemma convSameElem_eq_specConvElem (a v : List ℝ)
    (hsym : ∀ k, k < v.length → v.getD k 0 = v.getD (v.length - 1 - k) 0)
    (hodd : v.length % 2 = 1) (hle : v.length ≤ a.length) (i : ℕ) :
    convSameElem a v i = specConvElem a v i := by
  unfold convSameElem specConvElem
  rw [← Finset.sum_range_reflect (fun k =>
    v.getD k 0 * getZ a ((i : ℤ) + (sameStart a.length v.length : ℤ) - (k : ℤ)))]
  refine Finset.sum_congr rfl fun k hk => ?_
  rw [Finset.mem_range] at hk
  have hstart : sameStart a.length v.length = v.length / 2 := by
    unfold sameStart; omega
  rw [hstart, ← hsym k hk, mul_comm]
  congr 2
  omega

lemma convSame_eq_specConv1d (a v : List ℝ)
    (hsym : ∀ k, k < v.length → v.getD k 0 = v.getD (v.length - 1 - k) 0)
    (hodd : v.length % 2 = 1) (hle : v.length ≤ a.length) :
    convSame a v = specConv1d a v := by
  unfold convSame specConv1d
  rw [max_eq_left hle]
  exact List.map_congr_left fun i _ =>
    convSameElem_eq_specConvElem a v hsym hodd hle i

/-! ### 2D plane lemmas -/

lemma width_of_rect (m : List (List ℝ)) (W : ℕ) (hm : m ≠ [])
    (hrect : ∀ r ∈ m, r.length = W) : width m = W := by
  cases m with
  | nil => exact absurd rfl hm
  | cons r rs => exact hrect r (List.mem_cons_self r rs)

lemma length_col (m : List (List ℝ)) (j : ℕ) : (col m j).length = m.length := by
  simp [col]

lemma plane_reconstruct (m : List (List ℝ)) (W : ℕ)
    (hrect : ∀ r ∈ m, r.length = W) :
    (List.range m.length).map (fun i =>
      (List.range W).map (fun j => (m.getD i []).getD j 0)) = m := by
  apply List.ext_getElem (by simp)
  intro i h1 h2
  simp only [List.getElem_map, List.getElem_range]
  have hget : m.getD i [] = m[i] := by
    simp [List.getD_eq_getElem?_getD, List.getElem?_eq_getElem h2]
  rw [hget, ← hrect m[i] (List.getElem_mem h2)]
  exact list_reconstruct m[i] 0

lemma col_getD (m : List (List ℝ)) (i j : ℕ) (hi : i < m.length) :
    (col m j).getD i 0 = (m.getD i []).getD j 0 := by
  unfold col
  exact getD_map_list (fun r => r.getD j 0) m [] 0 i hi

lemma applySeparableConv2d_eq_convAxis0 (m : List (List ℝ)) (v : List ℝ) :
    applySeparableConv2d m v = convAxis0 (m.map (fun r => convSame r v)) v := rfl

lemma convAxis0_one (m : List (List ℝ)) (W : ℕ) (hH : 0 < m.length) (_hW : 0 < W)
    (hrect : ∀ r ∈ m, r.length = W) : convAxis0 m [1] = m := by
  have hm : m ≠ [] := List.length_pos.mp hH
  have hwidth : width m = W := width_of_rect m W hm hrect
  have hl : max m.length (1 : ℕ) = m.length := by omega
  unfold convAxis0
  rw [show ([(1 : ℝ)]).length = 1 from rfl, hl, hwidth]
  rw [List.map_congr_left (fun i hi => ?_)]
  · exact plane_reconstruct m W hrect
  · rw [List.mem_range] at hi
    refine List.map_congr_left fun j _ => ?_
    rw [convSameElem_one]
    exact col_getD m i j hi

lemma applySeparableConv2d_one (m : List (List ℝ)) (W : ℕ) (hH : 0 < m.length)
    (hW : 0 < W) (hrect : ∀ r ∈ m, r.length = W) :
    applySeparableConv2d m [1] = m := by
  rw [applySeparableConv2d_eq_convAxis0]
  have hrows : m.map (fun r => convSame r [1]) = m := by
    have h1 : m.map (fun r => convSame r [1]) = m.map (fun r => r) := by
      refine List.map_congr_left fun r hr => convSame_one r ?_
      have := hrect r hr
      intro hnil
      rw [hnil] at this
      simp at this
      omega
    rw [h1, List.map_id']
  rw [hrows]
  exact convAxis0_one m W hH hW hrect

lemma conv2d_eq_spec2d (m : List (List ℝ)) (v : List ℝ) (W : ℕ)
    (hrect : ∀ r ∈ m, r.length = W)
    (hsym : ∀ k, k < v.length → v.getD k 0 = v.getD (v.length - 1 - k) 0)
    (hodd : v.length % 2 = 1) (hW : v.length ≤ W) (hH : v.length ≤ m.length) :
    applySeparableConv2d m v = specSeparableConv2d m v := by
  have hK1 : 1 ≤ v.length := by omega
  have hm : m ≠ [] := by
    intro h
    have hz : m.length = 0 := by rw [h]; rfl
    omega
  -- The row pass agrees with the spec's row pass.
  have hrow : m.map (fun r => convSame r v) = m.map (fun r => specConv1d r v) :=
    List.map_congr_left fun r hr =>
      convSame_eq_specConv1d r v hsym hodd (by rw [hrect r hr]; exact hW)
  set tmp := m.map (fun r => specConv1d r v) with htmp
  have htlen : tmp.length = m.length := by simp [htmp]
  have htrect : ∀ r ∈ tmp, r.length = W := by
    intro r hr
    rw [htmp] at hr
    rcases List.mem_map.mp hr with ⟨r0, hr0, rfl⟩
    rw [length_specConv1d]
    exact hrect r0 hr0
  have htne : tmp ≠ [] := by
    intro h
    rw [h] at htlen
    exact hm (List.length_eq_zero.mp htlen.symm)
  have htw : width tmp = W := width_of_rect tmp W htne htrect
  unfold applySeparableConv2d specSeparableConv2d
  rw [hrow]
  unfold convAxis0 specAxis0
  rw [htlen, max_eq_left hH]
  refine List.map_congr_left fun i _ => List.map_congr_left fun j _ => ?_
  refine convSameElem_eq_specConvElem _ v hsym hodd ?_ i
  rw [length_col, htlen]
  exact hH

/-! ### Gaussian kernel lemmas -/

lemma length_gaussRaw (σ : ℝ) : (gaussRaw σ).length = 2 * ⌈(3 : ℝ) * σ⌉₊ + 1 := by
  simp [gaussRaw]

lemma gaussRaw_pos (σ : ℝ) : ∀ x ∈ gaussRaw σ, 0 < x := by
  intro x hx
  rcases List.mem_map.mp hx with ⟨k, _, rfl⟩
  exact Real.exp_pos _

lemma gaussRaw_ne_nil (σ : ℝ) : gaussRaw σ ≠ [] := by
  intro h
  have hl := length_gaussRaw σ
  rw [h] at hl
  simp at hl

lemma gaussRaw_sum_pos (σ : ℝ) : 0 < (gaussRaw σ).sum :=
  List.sum_pos _ (gaussRaw_pos σ) (gaussRaw_ne_nil σ)

lemma gaussianKernel1d_degenerate (σ : ℝ) (h : σ ≤ 0 ∨ |σ| ≤ 1e-8) :
    gaussianKernel1d σ = [1] := by
  unfold gaussianKernel1d
  rw [if_pos h]

lemma gaussianKernel1d_of_pos (σ : ℝ) (h : ¬(σ ≤ 0 ∨ |σ| ≤ 1e-8)) :
    gaussianKernel1d σ = (gaussRaw σ).map (fun t => t / (gaussRaw σ).sum) := by
  unfold gaussianKernel1d
  rw [if_neg h, if_neg (ne_of_gt (gaussRaw_sum_pos σ))]

lemma length_gaussianKernel1d_pos (σ : ℝ) (h : ¬(σ ≤ 0 ∨ |σ| ≤ 1e-8)) :
    (gaussianKernel1d σ).length = 2 * ⌈(3 : ℝ) * σ⌉₊ + 1 := by
  rw [gaussianKernel1d_of_pos σ h, List.length_map, length_gaussRaw]

lemma length_gaussianKernel1d_odd (σ : ℝ) :
    (gaussianKernel1d σ).length % 2 = 1 := by
  by_cases h : σ ≤ 0 ∨ |σ| ≤ 1e-8
  · rw [gaussianKernel1d_degenerate σ h]
    rfl
  · rw [length_gaussianKernel1d_pos σ h]
    omega

lemma gaussianKernel1d_ne_nil (σ : ℝ) : gaussianKernel1d σ ≠ [] := by
  intro h
  have hl := length_gaussianKernel1d_odd σ
  rw [h] at hl
  simp at hl

lemma gaussianKernel1d_getD (σ : ℝ) (h : ¬(σ ≤ 0 ∨ |σ| ≤ 1e-8)) (k : ℕ)
    (hk : k < 2 * ⌈(3 : ℝ) * σ⌉₊ + 1) :
    (gaussianKernel1d σ).getD k 0 =
      Real.exp (-((((k : ℝ) - (⌈(3 : ℝ) * σ⌉₊ : ℝ)) * ((k : ℝ) - (⌈(3 : ℝ) * σ⌉₊ : ℝ)))
        / (2 * σ * σ))) / (gaussRaw σ).sum := by
  rw [gaussianKernel1d_of_pos σ h]
  unfold gaussRaw
  rw [List.map_map]
  rw [getD_range_map _ 0 _ _ hk]
  simp [Function.comp]

lemma gaussianKernel1d_symm (σ : ℝ) : ∀ k, k < (gaussianKernel1d σ).length →
    (gaussianKernel1d σ).getD k 0 =
    (gaussianKernel1d σ).getD ((gaussianKernel1d σ).length - 1 - k) 0 := by
  intro k hk
  by_cases h : σ ≤ 0 ∨ |σ| ≤ 1e-8
  · rw [gaussianKernel1d_degenerate σ h] at hk ⊢
    have hk0 : k = 0 := by
      simp only [List.length_singleton] at hk
      omega
    subst hk0
    rfl
  · have hlen := length_gaussianKernel1d_pos σ h
    rw [hlen] at hk ⊢
    set r := ⌈(3 : ℝ) * σ⌉₊ with hr
    rw [gaussianKernel1d_getD σ h k hk, gaussianKernel1d_getD σ h (2 * r + 1 - 1 - k) (by omega)]
    have hcast : ((2 * r + 1 - 1 - k : ℕ) : ℝ) = 2 * (r : ℝ) - (k : ℝ) := by
      have hn : (2 * r + 1 - 1 - k : ℕ) = 2 * r - k := by omega
      rw [hn, Nat.cast_sub (by omega)]
      push_cast
      ring
    rw [hcast]
    congr 2
    ring

lemma gaussianKernel1d_sum (σ : ℝ) : (gaussianKernel1d σ).sum = 1 := by
  by_cases h : σ ≤ 0 ∨ |σ| ≤ 1e-8
  · rw [gaussianKernel1d_degenerate σ h]
    simp
  · rw [gaussianKernel1d_of_pos σ h, list_sum_div,
      div_self (ne_of_gt (gaussRaw_sum_pos σ))]

lemma gaussianKernel1d_mem_pos (σ : ℝ) : ∀ x ∈ gaussianKernel1d σ, 0 < x := by
  intro x hx
  by_cases h : σ ≤ 0 ∨ |σ| ≤ 1e-8
  · rw [gaussianKernel1d_degenerate σ h] at hx
    simp only [List.mem_singleton] at hx
    subst hx
    exact one_pos
  · rw [gaussianKernel1d_of_pos σ h] at hx
    rcases List.mem_map.mp hx with ⟨t, ht, rfl⟩
    exact div_pos (gaussRaw_pos σ t ht) (gaussRaw_sum_pos σ)

lemma gaussianKernel1d_tiny (σ : ℝ) (h0 : 0 < σ) (h8 : σ ≤ 1e-8) :
    gaussianKernel1d σ = [1] :=
  gaussianKernel1d_degenerate σ (Or.inr (by rw [abs_of_pos h0]; exact h8))

/-! ### List minimum / maximum lemmas -/

lemma foldl_min_le_init (l : List ℝ) (x : ℝ) : l.foldl min x ≤ x := by
  induction l generalizing x with
  | nil => simp
  | cons a as ih => exact le_trans (ih (min x a)) (min_le_left x a)

lemma foldl_min_le_mem (l : List ℝ) (y : ℝ) (hy : y ∈ l) :
    ∀ x, l.foldl min x ≤ y := by
  induction l with
  | nil => cases hy
  | cons a as ih =>
    intro x
    rcases List.mem_cons.mp hy with rfl | h
    · exact le_trans (foldl_min_le_init as (min x y)) (min_le_right x y)
    · exact ih h (min x a)

lemma foldl_min_mem (l : List ℝ) : ∀ x, l.foldl min x ∈ x :: l := by
  induction l with
  | nil => intro x; simp
  | cons a as ih =>
    intro x
    rcases List.mem_cons.mp (ih (min x a)) with h | h
    · rcases min_choice x a with hm | hm
      · rw [List.foldl_cons, h, hm]
        exact List.mem_cons_self x (a :: as)
      · rw [List.foldl_cons, h, hm]
        exact List.mem_cons_of_mem x (List.mem_cons_self a as)
    · rw [List.foldl_cons]
      exact List.mem_cons_of_mem x (List.mem_cons_of_mem a h)

lemma foldl_max_le_init (l : List ℝ) (x : ℝ) : x ≤ l.foldl max x := by
  induction l generalizing x with
  | nil => simp
  | cons a as ih => exact le_trans (le_max_left x a) (ih (max x a))

lemma foldl_max_le_mem (l : List ℝ) (y : ℝ) (hy : y ∈ l) :
    ∀ x, y ≤ l.foldl max x := by
  induction l with
  | nil => cases hy
  | cons a as ih =>
    intro x
    rcases List.mem_cons.mp hy with rfl | h
    · exact le_trans (le_max_right x y) (foldl_max_le_init as (max x y))
    · exact ih h (max x a)

lemma foldl_max_mem (l : List ℝ) : ∀ x, l.foldl max x ∈ x :: l := by
  induction l with
  | nil => intro x; simp
  | cons a as ih =>
    intro x
    rcases List.mem_cons.mp (ih (max x a)) with h | h
    · rcases max_choice x a with hm | hm
      · rw [List.foldl_cons, h, hm]
        exact List.mem_cons_self x (a :: as)
      · rw [List.foldl_cons, h, hm]
        exact List.mem_cons_of_mem x (List.mem_cons_self a as)
    · rw [List.foldl_cons]
      exact List.mem_cons_of_mem x (List.mem_cons_of_mem a h)

lemma listMin_le (l : List ℝ) (y : ℝ) (hy : y ∈ l) : listMin l ≤ y := by
  cases l with
  | nil => cases hy
  | cons x xs =>
    rcases List.mem_cons.mp hy with rfl | h
    · exact foldl_min_le_init xs y
    · exact foldl_min_le_mem xs y h x

lemma le_listMax (l : List ℝ) (y : ℝ) (hy : y ∈ l) : y ≤ listMax l := by
  cases l with
  | nil => cases hy
  | cons x xs =>
    rcases List.mem_cons.mp hy with rfl | h
    · exact foldl_max_le_init xs y
    · exact foldl_max_le_mem xs y h x

lemma listMin_mem (l : List ℝ) (h : l ≠ []) : listMin l ∈ l := by
  cases l with
  | nil => exact absurd rfl h
  | cons x xs => exact foldl_min_mem xs x

lemma listMax_mem (l : List ℝ) (h : l ≠ []) : listMax l ∈ l := by
  cases l with
  | nil => exact absurd rfl h
  | cons x xs => exact foldl_max_mem xs x

lemma listMin_lt_listMax (l : List ℝ) (x y : ℝ) (hx : x ∈ l) (hy : y ∈ l)
    (hxy : x ≠ y) : listMin l < listMax l := by
  rcases lt_or_gt_of_ne hxy with h | h
  · exact lt_of_le_of_lt (listMin_le l x hx) (lt_of_lt_of_le h (le_listMax l y hy))
  · exact lt_of_le_of_lt (listMin_le l y hy) (lt_of_lt_of_le h (le_listMax l x hx))

lemma listMin_pos (l : List ℝ) (h : l ≠ []) (hpos : ∀ x ∈ l, 0 < x) :
    0 < listMin l :=
  hpos _ (listMin_mem l h)

lemma foldl_min_map_mono (f : ℝ → ℝ) (hf : Monotone f) (l : List ℝ) :
    ∀ x, (l.map f).foldl min (f x) = f (l.foldl min x) := by
  induction l with
  | nil => intro x; simp
  | cons a as ih =>
    intro x
    simp only [List.map_cons, List.foldl_cons]
    rw [← hf.map_min, ih (min x a)]

lemma foldl_max_map_mono (f : ℝ → ℝ) (hf : Monotone f) (l : List ℝ) :
    ∀ x, (l.map f).foldl max (f x) = f (l.foldl max x) := by
  induction l with
  | nil => intro x; simp
  | cons a as ih =>
    intro x
    simp only [List.map_cons, List.foldl_cons]
    rw [← hf.map_max, ih (max x a)]

lemma listMin_map_mono (f : ℝ → ℝ) (hf : Monotone f) (l : List ℝ) (h : l ≠ []) :
    listMin (l.map f) = f (listMin l) := by
  cases l with
  | nil => exact absurd rfl h
  | cons x xs =>
    simp only [List.map_cons, listMin]
    exact foldl_min_map_mono f hf xs x

lemma listMax_map_mono (f : ℝ → ℝ) (hf : Monotone f) (l : List ℝ) (h : l ≠ []) :
    listMax (l.map f) = f (listMax l) := by
  cases l with
  | nil => exact absurd rfl h
  | cons x xs =>
    simp only [List.map_cons, listMax]
    exact foldl_max_map_mono f hf xs x

/-! ### NPArray lemmas -/

lemma flattenNP_mapNP (f : ℝ → ℝ) (a : NPArray) :
    flattenNP (mapNP f a) = (flattenNP a).map f := by
  cases a with
  | r0 x => rfl
  | r1 v => rfl
  | r2 m => simp [flattenNP, mapNP, List.map_flatten]
  | r3 t =>
    simp only [flattenNP, mapNP, List.map_flatten, List.map_map]
    congr 1
    refine List.map_congr_left fun x _ => ?_
    simp [List.map_flatten]
  | rOther n => rfl

lemma ndim_mapNP (f : ℝ → ℝ) (a : NPArray) : (mapNP f a).ndim = a.ndim := by
  cases a <;> rfl

lemma shapeNP_mapNP (f : ℝ → ℝ) (a : NPArray) :
    shapeNP (mapNP f a) = shapeNP a := by
  cases a with
  | r0 x => rfl
  | r1 v => simp [shapeNP, mapNP]
  | r2 m =>
    cases m with
    | nil => rfl
    | cons r rs => simp [shapeNP, mapNP, width]
  | r3 t =>
    cases t with
    | nil => rfl
    | cons row rows =>
      cases row with
      | nil => simp [shapeNP, mapNP, width3, channels]
      | cons px pxs => simp [shapeNP, mapNP, width3, channels]
  | rOther n => rfl

/-! ### Normalization branch lemmas -/

lemma normalizeArr_rescale (a : NPArray)
    (h : listMin (flattenNP a) < listMax (flattenNP a)) :
    normalizeArr a = mapNP (fun v =>
      (v - listMin (flattenNP a)) /
        (listMax (flattenNP a) - listMin (flattenNP a))) a := by
  unfold normalizeArr
  rw [if_pos h]

lemma normalizeArr_degenerate (a : NPArray)
    (h : ¬ listMin (flattenNP a) < listMax (flattenNP a)) :
    normalizeArr a = mapNP (fun _ => 0) a := by
  unfold normalizeArr
  rw [if_neg h]

/-! ### Pipeline branch lemmas -/

lemma processImage_badShape (img : NPArray) (norm : Bool) (σopt : Option ℝ)
    (h : img.ndim ≠ 2 ∧ img.ndim ≠ 3) :
    processImage img norm σopt = .error shapeErr := by
  unfold processImage
  rw [if_pos h]

lemma processImage_negSigma (img : NPArray) (norm : Bool) (σ : ℝ)
    (h2 : ¬(img.ndim ≠ 2 ∧ img.ndim ≠ 3)) (h : σ < 0) :
    processImage img norm (some σ) = .error sigmaErr := by
  unfold processImage
  rw [if_neg h2]
  simp only [Option.getD_some]
  rw [if_pos h]

lemma processImage_skip (img : NPArray) (norm : Bool) (σopt : Option ℝ)
    (h2 : ¬(img.ndim ≠ 2 ∧ img.ndim ≠ 3)) (h : σopt.getD 0 = 0) :
    processImage img norm σopt = .ok (if norm then normalizeArr img else img) := by
  unfold processImage
  rw [if_neg h2]
  simp only [h]
  rw [if_neg (by norm_num), if_neg (by simp)]

lemma processImage_filter (img : NPArray) (norm : Bool) (σ : ℝ)
    (h2 : ¬(img.ndim ≠ 2 ∧ img.ndim ≠ 3)) (hσ : 0 < σ) :
    processImage img norm (some σ) =
      match (if norm then normalizeArr img else img) with
      | .r2 m => .ok (.r2 (applySeparableConv2d m (gaussianKernel1d σ)))
      | .r3 t => (filterRank3 t (gaussianKernel1d σ)).map NPArray.r3
      | a => .ok a := by
  unfold processImage
  rw [if_neg h2]
  simp only [Option.getD_some]
  rw [if_neg (not_lt.mpr (le_of_lt hσ)), if_pos ⟨ne_of_gt hσ, hσ⟩]

/-! ### Convolution output shape -/

lemma width_convRows (m : List (List ℝ)) (v : List ℝ) (W : ℕ) (hm : m ≠ [])
    (hrect : ∀ r ∈ m, r.length = W) :
    width (m.map (fun r => convSame r v)) = max W v.length := by
  cases m with
  | nil => exact absurd rfl hm
  | cons r rs =>
    simp only [List.map_cons, width, List.headD_cons]
    rw [length_convSame, hrect r (List.mem_cons_self r rs)]

lemma length_applySeparableConv2d (m : List (List ℝ)) (v : List ℝ) :
    (applySeparableConv2d m v).length = max m.length v.length := by
  unfold applySeparableConv2d convAxis0
  simp

lemma rows_applySeparableConv2d (m : List (List ℝ)) (v : List ℝ) (W : ℕ)
    (hm : m ≠ []) (hrect : ∀ r ∈ m, r.length = W) :
    ∀ r ∈ applySeparableConv2d m v, r.length = max W v.length := by
  intro r hr
  unfold applySeparableConv2d convAxis0 at hr
  rcases List.mem_map.mp hr with ⟨i, _, rfl⟩
  rw [List.length_map, List.length_range]
  exact width_convRows m v W hm hrect

/-! ### Channel slices and restacking -/

lemma length_channelSlice (t : List (List (List ℝ))) (c : ℕ) :
    (channelSlice t c).length = t.length := by
  simp [channelSlice]

lemma rows_channelSlice (t : List (List (List ℝ))) (c : ℕ) (W : ℕ)
    (hrow : ∀ row ∈ t, row.length = W) :
    ∀ r ∈ channelSlice t c, r.length = W := by
  intro r hr
  rcases List.mem_map.mp hr with ⟨row, hmem, rfl⟩
  rw [List.length_map]
  exact hrow row hmem

lemma channelSlice_ne_nil (t : List (List (List ℝ))) (c : ℕ) (ht : t ≠ []) :
    channelSlice t c ≠ [] := by
  intro h
  have := length_channelSlice t c
  rw [h] at this
  exact ht (List.length_eq_zero.mp this.symm)

lemma filterRank3_ok (t : List (List (List ℝ))) (v : List ℝ) (hv : v ≠ [])
    (hrow : ∀ row ∈ t, row.length = width3 t)
    (hH : v.length ≤ t.length) (hW : v.length ≤ width3 t) :
    filterRank3 t v = .ok (stackChannels t.length (width3 t)
      ((List.range (channels t)).map
        (fun c => applySeparableConv2d (channelSlice t c) v))) := by
  have hK1 : 1 ≤ v.length := List.length_pos.mpr hv
  have ht : t ≠ [] := by
    intro h
    have hz : t.length = 0 := by rw [h]; rfl
    omega
  have hcheck : ((List.range (channels t)).map
      (fun c => applySeparableConv2d (channelSlice t c) v)).all
      (fun p => p.length == t.length && p.all (fun r => r.length == width3 t))
      = true := by
    rw [List.all_eq_true]
    intro p hp
    rcases List.mem_map.mp hp with ⟨c, _, rfl⟩
    rw [Bool.and_eq_true, beq_iff_eq]
    constructor
    · rw [length_applySeparableConv2d, length_channelSlice]
      exact max_eq_left hH
    · rw [List.all_eq_true]
      intro r hr
      rw [beq_iff_eq]
      have hrl := rows_applySeparableConv2d (channelSlice t c) v (width3 t)
        (channelSlice_ne_nil t c ht) (rows_channelSlice t c (width3 t) hrow) r hr
      rw [hrl]
      exact max_eq_left hW
  unfold filterRank3
  rw [if_pos hcheck]

lemma channelSlice_stack (H W : ℕ) (planes : List (List (List ℝ))) (c : ℕ)
    (hc : c < planes.length)
    (hlen : (planes.getD c []).length = H)
    (hrows : ∀ r ∈ planes.getD c [], r.length = W) :
    channelSlice (stackChannels H W planes) c = planes.getD c [] := by
  unfold channelSlice stackChannels
  rw [List.map_map]
  have hstep : ∀ i ∈ List.range H,
      ((fun row => List.map (fun px => px.getD c 0) row) ∘ fun i =>
        (List.range W).map (fun j => planes.map (fun p => (p.getD i []).getD j 0))) i
        = (List.range W).map (fun j => ((planes.getD c []).getD i []).getD j 0) := by
    intro i _
    simp only [Function.comp, List.map_map]
    refine List.map_congr_left fun j _ => ?_
    simp only [Function.comp]
    exact getD_map_list (fun p => (p.getD i []).getD j 0) planes [] 0 c hc
  rw [List.map_congr_left hstep, ← hlen]
  exact plane_reconstruct (planes.getD c []) W hrows

lemma cube_reconstruct (t : List (List (List ℝ))) (W C : ℕ)
    (hrow : ∀ row ∈ t, row.length = W)
    (hpx : ∀ row ∈ t, ∀ px ∈ row, px.length = C) :
    (List.range t.length).map (fun i => (List.range W).map (fun j =>
      (List.range C).map (fun c => ((t.getD i []).getD j []).getD c 0))) = t := by
  apply List.ext_getElem (by simp)
  intro i h1 h2
  simp only [List.getElem_map, List.getElem_range]
  have hget : t.getD i [] = t[i] := getD_eq_getElem_of_lt t [] i h2
  rw [hget]
  have hmem : t[i] ∈ t := List.getElem_mem h2
  rw [← hrow t[i] hmem]
  apply List.ext_getElem (by simp)
  intro j g1 g2
  simp only [List.getElem_map, List.getElem_range]
  have hgetj : t[i].getD j [] = t[i][j] := getD_eq_getElem_of_lt t[i] [] j g2
  rw [hgetj]
  have hmemj : t[i][j] ∈ t[i] := List.getElem_mem g2
  rw [← hpx t[i] hmem t[i][j] hmemj]
  exact list_reconstruct t[i][j] 0

lemma stack_slices (t : List (List (List ℝ)))
    (hrow : ∀ row ∈ t, row.length = width3 t)
    (hpx : ∀ row ∈ t, ∀ px ∈ row, px.length = channels t) :
    stackChannels t.length (width3 t)
      ((List.range (channels t)).map (fun c => channelSlice t c)) = t := by
  unfold stackChannels
  have hstep : ∀ i ∈ List.range t.length, (List.range (width3 t)).map (fun j =>
      ((List.range (channels t)).map (fun c => channelSlice t c)).map
        (fun p => (p.getD i []).getD j 0))
      = (List.range (width3 t)).map (fun j =>
        (List.range (channels t)).map (fun c => ((t.getD i []).getD j []).getD c 0)) := by
    intro i hi
    rw [List.mem_range] at hi
    refine List.map_congr_left fun j hj => ?_
    rw [List.mem_range] at hj
    rw [List.map_map]
    refine List.map_congr_left fun c hc => ?_
    simp only [Function.comp]
    have h1 : (channelSlice t c).getD i [] = (t.getD i []).map (fun px => px.getD c 0) := by
      unfold channelSlice
      exact getD_map_list (fun row => row.map (fun px => px.getD c 0)) t [] [] i hi
    rw [h1]
    have hjlen : j < (t.getD i []).length := by
      rw [hrow (t.getD i []) (getD_mem t [] i hi)]
      exact hj
    exact getD_map_list (fun px => px.getD c 0) (t.getD i []) [] 0 j hjlen
  rw [List.map_congr_left hstep]
  exact cube_reconstruct t (width3 t) (channels t) hrow hpx

lemma filterRank3_one (t : List (List (List ℝ)))
    (hrow : ∀ row ∈ t, row.length = width3 t)
    (hpx : ∀ row ∈ t, ∀ px ∈ row, px.length = channels t)
    (hH : 0 < t.length) (hW : 0 < width3 t) :
    filterRank3 t [1] = .ok t := by
  rw [filterRank3_ok t [1] (by simp) hrow (by simpa using hH) (by simpa using hW)]
  have hslice : (List.range (channels t)).map
      (fun c => applySeparableConv2d (channelSlice t c) [1])
      = (List.range (channels t)).map (fun c => channelSlice t c) := by
    refine List.map_congr_left fun c _ => ?_
    refine applySeparableConv2d_one (channelSlice t c) (width3 t) ?_ hW
      (rows_channelSlice t c (width3 t) hrow)
    rw [length_channelSlice]
    exact hH
  rw [hslice, stack_slices t hrow hpx]

lemma filterRank3_mismatch (t : List (List (List ℝ))) (v : List ℝ)
    (h : ¬ ((List.range (channels t)).map
      (fun c => applySeparableConv2d (channelSlice t c) v)).all
      (fun p => p.length == t.length && p.all (fun r => r.length == width3 t))
      = true) :
    filterRank3 t v = .error broadcastErr := by
  unfold filterRank3
  rw [if_neg h]

lemma filterRank3_slice (t : List (List (List ℝ))) (v : List ℝ) (c : ℕ)
    (hv : v ≠ [])
    (hrow : ∀ row ∈ t, row.length = width3 t)
    (hH : v.length ≤ t.length) (hW : v.length ≤ width3 t)
    (hc : c < channels t) :
    channelSlice (okOr (filterRank3 t v) []) c
      = applySeparableConv2d (channelSlice t c) v := by
  rw [filterRank3_ok t v hv hrow hH hW]
  show channelSlice (stackChannels t.length (width3 t) _) c = _
  have hplane : ((List.range (channels t)).map
      (fun c => applySeparableConv2d (channelSlice t c) v)).getD c []
      = applySeparableConv2d (channelSlice t c) v :=
    getD_range_map _ [] _ _ hc
  have ht : t ≠ [] := by
    intro h
    have hz : t.length = 0 := by rw [h]; rfl
    have hK1 : 1 ≤ v.length := List.length_pos.mpr hv
    omega
  rw [channelSlice_stack t.length (width3 t) _ c (by simpa using hc) ?_ ?_]
  · exact hplane
  · rw [hplane, length_applySeparableConv2d, length_channelSlice]
    exact max_eq_left hH
  · rw [hplane]
    intro r hr
    have hrl := rows_applySeparableConv2d (channelSlice t c) v (width3 t)
      (channelSlice_ne_nil t c ht) (rows_channelSlice t c (width3 t) hrow) r hr
    rw [hrl]
    exact max_eq_left hW

/-! ### Constructor-shape lemmas for normalization -/

lemma normalizeArr_is_mapNP (a : NPArray) : ∃ f, normalizeArr a = mapNP f a := by
  by_cases h : listMin (flattenNP a) < listMax (flattenNP a)
  · exact ⟨_, normalizeArr_rescale a h⟩
  · exact ⟨_, normalizeArr_degenerate a h⟩

lemma normalizeArr_r2 (m : List (List ℝ)) :
    ∃ f, normalizeArr (NPArray.r2 m) = .r2 (m.map (List.map f)) := by
  obtain ⟨f, hf⟩ := normalizeArr_is_mapNP (NPArray.r2 m)
  exact ⟨f, hf⟩

lemma normalizeArr_r3 (t : List (List (List ℝ))) :
    ∃ f, normalizeArr (NPArray.r3 t) = .r3 (t.map (List.map (List.map f))) := by
  obtain ⟨f, hf⟩ := normalizeArr_is_mapNP (NPArray.r3 t)
  exact ⟨f, hf⟩

lemma width_map_map (f : ℝ → ℝ) (m : List (List ℝ)) :
    width (m.map (List.map f)) = width m := by
  cases m <;> simp [width]

lemma rect_map_map (f : ℝ → ℝ) (m : List (List ℝ)) (W : ℕ)
    (hrect : ∀ r ∈ m, r.length = W) :
    ∀ r ∈ m.map (List.map f), r.length = W := by
  intro r hr
  rcases List.mem_map.mp hr with ⟨r0, hr0, rfl⟩
  rw [List.length_map]
  exact hrect r0 hr0

lemma width3_map3 (f : ℝ → ℝ) (t : List (List (List ℝ))) :
    width3 (t.map (List.map (List.map f))) = width3 t := by
  cases t <;> simp [width3]

lemma channels_map3 (f : ℝ → ℝ) (t : List (List (List ℝ))) :
    channels (t.map (List.map (List.map f))) = channels t := by
  cases t with
  | nil => rfl
  | cons row rows => cases row <;> simp [channels]

lemma rows_map3 (f : ℝ → ℝ) (t : List (List (List ℝ))) (W : ℕ)
    (hrow : ∀ row ∈ t, row.length = W) :
    ∀ row ∈ t.map (List.map (List.map f)), row.length = W := by
  intro row hr
  rcases List.mem_map.mp hr with ⟨r0, hr0, rfl⟩
  rw [List.length_map]
  exact hrow r0 hr0

lemma px_map3 (f : ℝ → ℝ) (t : List (List (List ℝ))) (C : ℕ)
    (hpx : ∀ row ∈ t, ∀ px ∈ row, px.length = C) :
    ∀ row ∈ t.map (List.map (List.map f)), ∀ px ∈ row, px.length = C := by
  intro row hr px hp
  rcases List.mem_map.mp hr with ⟨r0, hr0, rfl⟩
  rcases List.mem_map.mp hp with ⟨p0, hp0, rfl⟩
  rw [List.length_map]
  exact hpx r0 hr0 p0 hp0

lemma not_degenerate_of_gt_tol (σ : ℝ) (hσ : σ > 1e-8) :
    ¬(σ ≤ 0 ∨ |σ| ≤ 1e-8) := by
  have h8 : (0 : ℝ) < 1e-8 := by norm_num
  push_neg
  constructor
  · linarith
  · rw [abs_of_pos (by linarith)]
    exact hσ

/-! ## Claim theorems -/

/-- C3: For every sigma strictly greater than the 1e-8 zero tolerance, the
built kernel has odd length `2r+1` with `r = ⌈3σ⌉`, its element `k` equals the
Gaussian sample `exp(-(k-r)²/(2σ²))` divided by the sum of all samples (so the
kernel is proportional to the Gaussian at offset `x = k - r`), it is symmetric
about its center, and it sums to exactly 1 (a fortiori within floating
tolerance); for sigma at or below zero, or within absolute tolerance 1e-8 of
zero, the kernel is exactly `[1.0]`. -/
theorem C3_kernel_builder (σ : ℝ) :
    (σ > 1e-8 →
      (gaussianKernel1d σ).length = 2 * ⌈(3 : ℝ) * σ⌉₊ + 1 ∧
      (∀ k, k < 2 * ⌈(3 : ℝ) * σ⌉₊ + 1 →
        (gaussianKernel1d σ).getD k 0 =
          Real.exp (-((((k : ℝ) - (⌈(3 : ℝ) * σ⌉₊ : ℝ)) *
            ((k : ℝ) - (⌈(3 : ℝ) * σ⌉₊ : ℝ))) / (2 * σ * σ))) / (gaussRaw σ).sum) ∧
      (∀ k, k < (gaussianKernel1d σ).length →
        (gaussianKernel1d σ).getD k 0 =
          (gaussianKernel1d σ).getD ((gaussianKernel1d σ).length - 1 - k) 0) ∧
      (gaussianKernel1d σ).sum = 1) ∧
    ((σ ≤ 0 ∨ |σ| ≤ 1e-8) → gaussianKernel1d σ = [1]) := by
  constructor
  · intro hσ
    have hd := not_degenerate_of_gt_tol σ hσ
    exact ⟨length_gaussianKernel1d_pos σ hd, gaussianKernel1d_getD σ hd,
      gaussianKernel1d_symm σ, gaussianKernel1d_sum σ⟩
  · exact gaussianKernel1d_degenerate σ

/-- Witness for C3 at the concrete inputs `σ = 1` (positive branch) and
`σ = 0` (degenerate branch). -/
theorem C3_kernel_builder_witness :
    ((1 : ℝ) > 1e-8 ∧ (gaussianKernel1d 1).sum = 1) ∧
    (((0 : ℝ) ≤ 0 ∨ |(0 : ℝ)| ≤ 1e-8) ∧ gaussianKernel1d 0 = [1]) :=
  ⟨⟨by norm_num, ((C3_kernel_builder 1).1 (by norm_num)).2.2.2⟩,
   ⟨Or.inl le_rfl, (C3_kernel_builder 0).2 (Or.inl le_rfl)⟩⟩

/-- C2: When normalization is requested, if the (NaN-ignoring) minimum and
maximum of the input satisfy `max > min` then every element of the
normalization step's output is the corresponding input element rescaled via
`(v - min) / (max - min)`; otherwise the step produces an all-zero array of
the same shape.  (In the real-number embedding every value is finite, so the
code's `isfinite` guards are identically true and NaN-aware min/max coincide
with plain min/max.) -/
theorem C2_normalization (img : NPArray) :
    (listMax (flattenNP img) > listMin (flattenNP img) →
      flattenNP (normalizeArr img) = (flattenNP img).map
        (fun v => (v - listMin (flattenNP img)) /
          (listMax (flattenNP img) - listMin (flattenNP img))) ∧
      shapeNP (normalizeArr img) = shapeNP img) ∧
    (¬ listMax (flattenNP img) > listMin (flattenNP img) →
      (∀ v ∈ flattenNP (normalizeArr img), v = 0) ∧
      shapeNP (normalizeArr img) = shapeNP img) := by
  constructor
  · intro h
    rw [normalizeArr_rescale img h]
    exact ⟨flattenNP_mapNP _ img, shapeNP_mapNP _ img⟩
  · intro h
    rw [normalizeArr_degenerate img h]
    refine ⟨?_, shapeNP_mapNP _ img⟩
    intro v hv
    rw [flattenNP_mapNP] at hv
    rcases List.mem_map.mp hv with ⟨_, _, rfl⟩
    rfl

/-- Witness for C2 at the concrete inputs `[[1, 3]]` (rescale branch) and
`[[5, 5]]` (degenerate branch). -/
theorem C2_normalization_witness :
    (listMax (flattenNP (NPArray.r2 [[1, 3]])) >
        listMin (flattenNP (NPArray.r2 [[1, 3]])) ∧
      flattenNP (normalizeArr (NPArray.r2 [[1, 3]])) =
        (flattenNP (NPArray.r2 [[1, 3]])).map
          (fun v => (v - listMin (flattenNP (NPArray.r2 [[1, 3]]))) /
            (listMax (flattenNP (NPArray.r2 [[1, 3]])) -
              listMin (flattenNP (NPArray.r2 [[1, 3]]))))) ∧
    (¬ listMax (flattenNP (NPArray.r2 [[5, 5]])) >
        listMin (flattenNP (NPArray.r2 [[5, 5]])) ∧
      ∀ v ∈ flattenNP (normalizeArr (NPArray.r2 [[5, 5]])), v = 0) := by
  have h1 : listMax (flattenNP (NPArray.r2 [[1, 3]])) >
      listMin (flattenNP (NPArray.r2 [[1, 3]])) := by
    show listMax [1, 3] > listMin [1, 3]
    unfold listMax listMin
    norm_num [max_def, min_def]
  have h2 : ¬ listMax (flattenNP (NPArray.r2 [[5, 5]])) >
      listMin (flattenNP (NPArray.r2 [[5, 5]])) := by
    show ¬ listMax [5, 5] > listMin [5, 5]
    unfold listMax listMin
    norm_num [max_def, min_def]
  exact ⟨⟨h1, ((C2_normalization (NPArray.r2 [[1, 3]])).1 h1).1⟩,
    ⟨h2, ((C2_normalization (NPArray.r2 [[5, 5]])).2 h2).1⟩⟩

/-- C7: For every valid-rank input, when `filter_sigma` is `None` or (being a
valid non-negative sigma) is `≤ 0`, the filtering stage is skipped entirely
and the pipeline returns exactly the normalized input (or the float-converted
input itself when `normalize=False`). -/
theorem C7_skip_filtering (img : NPArray) (norm : Bool) (σopt : Option ℝ)
    (hnd : img.ndim = 2 ∨ img.ndim = 3)
    (hσ : σopt = none ∨ ∃ s, σopt = some s ∧ s ≤ 0 ∧ 0 ≤ s) :
    processImage img norm σopt = .ok (if norm then normalizeArr img else img) := by
  have h2 : ¬(img.ndim ≠ 2 ∧ img.ndim ≠ 3) := by tauto
  apply processImage_skip img norm σopt h2
  rcases hσ with rfl | ⟨s, rfl, hle, hge⟩
  · rfl
  · simp [le_antisymm hle hge]

/-- Witness for C7 at the concrete input `[[2, 4]]` with `normalize=True` and
`filter_sigma = 0`. -/
theorem C7_skip_filtering_witness :
    ((NPArray.r2 [[2, 4]]).ndim = 2 ∨ (NPArray.r2 [[2, 4]]).ndim = 3) ∧
    ((some (0 : ℝ) : Option ℝ) = none ∨
      ∃ s, (some (0 : ℝ) : Option ℝ) = some s ∧ s ≤ 0 ∧ 0 ≤ s) ∧
    processImage (NPArray.r2 [[2, 4]]) true (some 0) =
      .ok (if true then normalizeArr (NPArray.r2 [[2, 4]]) else NPArray.r2 [[2, 4]]) :=
  ⟨Or.inl rfl, Or.inr ⟨0, rfl, le_rfl, le_rfl⟩,
    C7_skip_filtering (NPArray.r2 [[2, 4]]) true (some 0) (Or.inl rfl)
      (Or.inr ⟨0, rfl, le_rfl, le_rfl⟩)⟩

/-- C5 counterexample: at the concrete rank-1 input `[0]` the pipeline fails,
but with an error of the very same Python class (`ValueError`) as the
negative-sigma failure — the code has no distinct ShapeError class, so the
claimed "ShapeError-kind failure (distinct from the ValueError-kind)" is
false. -/
theorem C5_counterexample :
    processImage (NPArray.r1 [0]) true (some 1) = .error shapeErr ∧
    shapeErr.kind = ErrKind.valueErr ∧ sigmaErr.kind = ErrKind.valueErr := by
  refine ⟨processImage_badShape _ _ _ ?_, rfl, rfl⟩
  constructor <;> simp [NPArray.ndim]

/-- C5 (amended): For every input whose rank is neither 2 nor 3, the pipeline
fails before any numeric work — for any normalize flag and any sigma — with a
`ValueError` carrying the bad-shape message; this failure is distinguished
from the negative-sigma `ValueError` only by its message, not by its class. -/
theorem C5_shape_check (img : NPArray) (norm : Bool) (σopt : Option ℝ)
    (h : img.ndim ≠ 2 ∧ img.ndim ≠ 3) :
    processImage img norm σopt = .error shapeErr ∧
    shapeErr.kind = ErrKind.valueErr ∧ shapeErr.msg ≠ sigmaErr.msg :=
  ⟨processImage_badShape img norm σopt h, rfl, by decide⟩

/-- Witness for C5 (amended) at the concrete rank-4 input. -/
theorem C5_shape_check_witness :
    ((NPArray.rOther 0).ndim ≠ 2 ∧ (NPArray.rOther 0).ndim ≠ 3) ∧
    processImage (NPArray.rOther 0) false (some (-5)) = .error shapeErr := by
  have h : (NPArray.rOther 0).ndim ≠ 2 ∧ (NPArray.rOther 0).ndim ≠ 3 := by
    constructor <;> simp [NPArray.ndim]
  exact ⟨h, (C5_shape_check (NPArray.rOther 0) false (some (-5)) h).1⟩

lemma rows_convAxis0 (m : List (List ℝ)) (v : List ℝ) :
    ∀ r ∈ convAxis0 m v, r.length = width m := by
  intro r hr
  rcases List.mem_map.mp hr with ⟨i, _, rfl⟩
  simp

lemma length_convAxis0 (m : List (List ℝ)) (v : List ℝ) :
    (convAxis0 m v).length = max m.length v.length := by
  simp [convAxis0]

lemma applySeparableConv2d_ne_nil (m : List (List ℝ)) (v : List ℝ) (hv : v ≠ []) :
    applySeparableConv2d m v ≠ [] := by
  intro h
  have hl := length_applySeparableConv2d m v
  rw [h] at hl
  have hv1 : 1 ≤ v.length := List.length_pos.mpr hv
  simp at hl
  omega

lemma width_applySeparableConv2d (m : List (List ℝ)) (v : List ℝ) (W : ℕ)
    (hm : m ≠ []) (hv : v ≠ []) (hrect : ∀ r ∈ m, r.length = W) :
    width (applySeparableConv2d m v) = max W v.length := by
  rw [width_of_rect (applySeparableConv2d m v) (width (m.map (fun r => convSame r v)))
    (applySeparableConv2d_ne_nil m v hv)
    (rows_convAxis0 (m.map (fun r => convSame r v)) v)]
  exact width_convRows m v W hm hrect

lemma kernel_one_length : (gaussianKernel1d 1).length = 7 := by
  rw [length_gaussianKernel1d_pos 1 (not_degenerate_of_gt_tol 1 (by norm_num))]
  rw [show (3 : ℝ) * 1 = 3 by norm_num]
  simp

/-- C9: the claim that the pipeline always returns an array of the input's
shape is false on the code: at the concrete valid 2×2 input with the default
`filter_sigma = 1.0`, `np.convolve(·, ·, mode="same")` returns the kernel
length (7) rather than the signal length (2) whenever the kernel is longer,
so the pipeline returns a 7×7 array for a 2×2 input — contradicting the
function's own docstring ("same shape as input"). -/
theorem C9_shape_bug :
    resultShape (processImage (NPArray.r2 [[0, 1], [2, 3]]) true (some 1)) = [7, 7] ∧
    shapeNP (NPArray.r2 [[0, 1], [2, 3]]) = [2, 2] := by
  refine ⟨?_, rfl⟩
  have h2 : ¬((NPArray.r2 [[0, 1], [2, 3]]).ndim ≠ 2 ∧
      (NPArray.r2 [[0, 1], [2, 3]]).ndim ≠ 3) := by
    simp [NPArray.ndim]
  rw [processImage_filter _ _ _ h2 one_pos]
  obtain ⟨f, hf⟩ := normalizeArr_r2 [[0, 1], [2, 3]]
  rw [if_pos rfl, hf]
  show shapeNP (NPArray.r2 (applySeparableConv2d
    (([[0, 1], [2, 3]] : List (List ℝ)).map (List.map f)) (gaussianKernel1d 1))) = [7, 7]
  set m2 := ([[0, 1], [2, 3]] : List (List ℝ)).map (List.map f) with hm2
  have hlen2 : m2.length = 2 := by simp [hm2]
  have hconc : ∀ r ∈ ([[0, 1], [2, 3]] : List (List ℝ)), r.length = 2 := by
    intro r hr
    simp only [List.mem_cons, List.not_mem_nil, or_false] at hr
    rcases hr with rfl | rfl <;> rfl
  have hrect2 : ∀ r ∈ m2, r.length = 2 := rect_map_map f _ 2 hconc
  have hne2 : m2 ≠ [] := by
    intro h
    rw [h] at hlen2
    simp at hlen2
  show [(applySeparableConv2d m2 (gaussianKernel1d 1)).length,
    width (applySeparableConv2d m2 (gaussianKernel1d 1))] = [7, 7]
  rw [length_applySeparableConv2d, hlen2, kernel_one_length,
    width_applySeparableConv2d m2 (gaussianKernel1d 1) 2 hne2
      (gaussianKernel1d_ne_nil 1) hrect2, kernel_one_length]
  norm_num

/-- C6: the claim that every failure is raised before any numeric computation
is false on the code: at the concrete valid 2×2×1 input with the default
`filter_sigma = 1.0`, the pipeline normalizes and convolves first, and only
then raises a broadcast `ValueError` when the 7×7 convolved plane is written
into the 2×2 destination slice `out[:, :, 0]` — a failure occurring after
numeric work has begun, contradicting the docstring's error contract. -/
theorem C6_late_broadcast_failure :
    processImage (NPArray.r3 [[[0], [1]], [[2], [3]]]) true (some 1) =
      .error broadcastErr := by
  have h2 : ¬((NPArray.r3 [[[0], [1]], [[2], [3]]]).ndim ≠ 2 ∧
      (NPArray.r3 [[[0], [1]], [[2], [3]]]).ndim ≠ 3) := by
    simp [NPArray.ndim]
  rw [processImage_filter _ _ _ h2 one_pos]
  obtain ⟨f, hf⟩ := normalizeArr_r3 [[[0], [1]], [[2], [3]]]
  rw [if_pos rfl, hf]
  show (filterRank3 (([[[0], [1]], [[2], [3]]] :
    List (List (List ℝ))).map (List.map (List.map f)))
      (gaussianKernel1d 1)).map NPArray.r3 = .error broadcastErr
  set t2 := ([[[0], [1]], [[2], [3]]] :
    List (List (List ℝ))).map (List.map (List.map f)) with ht2
  have hch : channels t2 = 1 := by
    rw [ht2, channels_map3]
    rfl
  have h2l : t2.length = 2 := by simp [ht2]
  rw [filterRank3_mismatch t2 (gaussianKernel1d 1) ?_]
  · rfl
  · intro hall
    rw [List.all_eq_true] at hall
    have hp := hall (applySeparableConv2d (channelSlice t2 0) (gaussianKernel1d 1))
      (List.mem_map.mpr ⟨0, by rw [List.mem_range, hch]; omega, rfl⟩)
    rw [Bool.and_eq_true, beq_iff_eq] at hp
    have hlen := hp.1
    rw [length_applySeparableConv2d, length_channelSlice, kernel_one_length, h2l] at hlen
    simp at hlen

lemma sigma_tenth_not_degenerate : ¬((1 / 10 : ℝ) ≤ 0 ∨ |(1 / 10 : ℝ)| ≤ 1e-8) :=
  not_degenerate_of_gt_tol (1 / 10) (by norm_num)

lemma ceil_three_tenths : ⌈(3 : ℝ) * (1 / 10)⌉₊ = 1 := by
  rw [show (3 : ℝ) * (1 / 10) = 3 / 10 by norm_num]
  rw [Nat.ceil_eq_iff (by norm_num)]
  norm_num

lemma kernel_tenth_length : (gaussianKernel1d (1 / 10)).length = 3 := by
  rw [length_gaussianKernel1d_pos _ sigma_tenth_not_degenerate, ceil_three_tenths]

/-- C1 counterexample: on the concrete 1×1 plane `[[1]]` with the kernel the
Kernel Builder produces for `sigma = 0.1` (length 3), the Separable Convolver
does NOT compute a same-size result: `np.convolve(·, ·, mode="same")` returns
`max(N, K)` samples, so the output is 3×3 while the composition of two
same-size passes is 1×1.  The claim as stated (for every plane) is false. -/
theorem C1_counterexample :
    applySeparableConv2d [[1]] (gaussianKernel1d (1 / 10)) ≠
      specSeparableConv2d [[1]] (gaussianKernel1d (1 / 10)) := by
  intro h
  have h1 := congrArg List.length h
  rw [length_applySeparableConv2d] at h1
  have h2 : (specSeparableConv2d [[(1 : ℝ)]] (gaussianKernel1d (1 / 10))).length = 1 := by
    unfold specSeparableConv2d specAxis0
    simp
  rw [h2, kernel_tenth_length] at h1
  norm_num at h1

/-- C1 (amended): For every 2D plane whose height and width are both at least
the kernel's length, and every kernel produced by the Kernel Builder, the
Separable Convolver's output equals the composition of two same-size
zero-padded centered 1D passes — first each row, then each column of the
row-pass result, with `out[i] = ∑ₖ signal[i - K/2 + k] * kernel[k]` and
out-of-range signal indices read as zero. -/
theorem C1_separable_conv (m : List (List ℝ)) (σ : ℝ) (W : ℕ)
    (hrect : ∀ r ∈ m, r.length = W)
    (hW : (gaussianKernel1d σ).length ≤ W)
    (hH : (gaussianKernel1d σ).length ≤ m.length) :
    applySeparableConv2d m (gaussianKernel1d σ) =
      specSeparableConv2d m (gaussianKernel1d σ) :=
  conv2d_eq_spec2d m (gaussianKernel1d σ) W hrect
    (gaussianKernel1d_symm σ) (length_gaussianKernel1d_odd σ) hW hH

/-- Witness for C1 (amended) at the concrete 2×2 plane and the degenerate
kernel built for `σ = 0`. -/
theorem C1_separable_conv_witness :
    (∀ r ∈ ([[1, 2], [3, 4]] : List (List ℝ)), r.length = 2) ∧
    (gaussianKernel1d 0).length ≤ 2 ∧
    applySeparableConv2d [[1, 2], [3, 4]] (gaussianKernel1d 0) =
      specSeparableConv2d [[1, 2], [3, 4]] (gaussianKernel1d 0) := by
  have hg : (gaussianKernel1d 0).length ≤ 2 := by
    rw [gaussianKernel1d_degenerate 0 (Or.inl le_rfl)]
    simp
  have hrect : ∀ r ∈ ([[1, 2], [3, 4]] : List (List ℝ)), r.length = 2 := by
    intro r hr
    simp only [List.mem_cons, List.not_mem_nil, or_false] at hr
    rcases hr with rfl | rfl <;> rfl
  exact ⟨hrect, hg, C1_separable_conv [[1, 2], [3, 4]] 0 2 hrect hg
    (by simpa using hg)⟩

/-- C10: For every valid well-formed input and every sigma with
`0 < σ ≤ 1e-8`, the filtering branch is entered but the Kernel Builder's zero
tolerance makes the kernel `[1.0]`; convolving with `[1.0]` is the identity,
so the pipeline's output is exactly the output of the same call with
`filter_sigma = 0` (the normalized input): tiny positive sigmas behave as no
filtering. -/
theorem C10_tiny_sigma (img : NPArray) (norm : Bool) (σ : ℝ)
    (h0 : 0 < σ) (h8 : σ ≤ 1e-8) (hwf : wellFormedNP img) :
    gaussianKernel1d σ = [1] ∧
    processImage img norm (some σ) = processImage img norm (some 0) := by
  refine ⟨gaussianKernel1d_tiny σ h0 h8, ?_⟩
  by_cases h2 : img.ndim ≠ 2 ∧ img.ndim ≠ 3
  · rw [processImage_badShape _ _ _ h2, processImage_badShape _ _ _ h2]
  · rw [processImage_skip img norm (some 0) h2 rfl]
    rw [processImage_filter img norm σ h2 h0, gaussianKernel1d_tiny σ h0 h8]
    cases img with
    | r2 m =>
      obtain ⟨hH, hW, hrect⟩ := hwf
      obtain ⟨m2, hm2, hlen2, hrect2⟩ :
          ∃ m2, (if norm then normalizeArr (NPArray.r2 m) else NPArray.r2 m)
              = NPArray.r2 m2 ∧ m2.length = m.length ∧
              ∀ r ∈ m2, r.length = width m := by
        cases norm with
        | false => exact ⟨m, by simp, rfl, hrect⟩
        | true =>
          obtain ⟨f, hf⟩ := normalizeArr_r2 m
          exact ⟨m.map (List.map f), by simp [hf], by simp,
            rect_map_map f m (width m) hrect⟩
      rw [hm2]
      show Except.ok (NPArray.r2 (applySeparableConv2d m2 [1]))
        = Except.ok (NPArray.r2 m2)
      rw [applySeparableConv2d_one m2 (width m) (by omega) hW hrect2]
    | r3 t =>
      obtain ⟨hH, hW, hrow, hpx⟩ := hwf
      obtain ⟨t2, ht2, hlen2, hw2, hch2, hrow2, hpx2⟩ :
          ∃ t2, (if norm then normalizeArr (NPArray.r3 t) else NPArray.r3 t)
              = NPArray.r3 t2 ∧
            t2.length = t.length ∧ width3 t2 = width3 t ∧
            channels t2 = channels t ∧
            (∀ row ∈ t2, row.length = width3 t) ∧
            (∀ row ∈ t2, ∀ px ∈ row, px.length = channels t) := by
        cases norm with
        | false => exact ⟨t, by simp, rfl, rfl, rfl, hrow, hpx⟩
        | true =>
          obtain ⟨f, hf⟩ := normalizeArr_r3 t
          exact ⟨t.map (List.map (List.map f)), by simp [hf], by simp,
            width3_map3 f t, channels_map3 f t, rows_map3 f t (width3 t) hrow,
            px_map3 f t (channels t) hpx⟩
      rw [ht2]
      show (filterRank3 t2 [1]).map NPArray.r3 = Except.ok (NPArray.r3 t2)
      rw [filterRank3_one t2 ?_ ?_ ?_ ?_]
      · rfl
      · intro row hrw
        rw [hw2]
        exact hrow2 row hrw
      · intro row hrw px hp
        rw [hch2]
        exact hpx2 row hrw px hp
      · omega
      · rw [hw2]
        exact hW
    | r0 x =>
      obtain ⟨f, hf⟩ := normalizeArr_is_mapNP (NPArray.r0 x)
      cases norm with
      | false => simp
      | true =>
        rw [if_pos rfl, hf]
        rfl
    | r1 v =>
      obtain ⟨f, hf⟩ := normalizeArr_is_mapNP (NPArray.r1 v)
      cases norm with
      | false => simp
      | true =>
        rw [if_pos rfl, hf]
        rfl
    | rOther n =>
      obtain ⟨f, hf⟩ := normalizeArr_is_mapNP (NPArray.rOther n)
      cases norm with
      | false => simp
      | true =>
        rw [if_pos rfl, hf]
        rfl

/-- Witness for C10 at the concrete 2×2 input with `σ = 1e-9`. -/
theorem C10_tiny_sigma_witness :
    ((0 : ℝ) < 1e-9 ∧ (1e-9 : ℝ) ≤ 1e-8 ∧
      wellFormedNP (NPArray.r2 [[1, 2], [3, 4]])) ∧
    gaussianKernel1d 1e-9 = [1] ∧
    processImage (NPArray.r2 [[1, 2], [3, 4]]) true (some 1e-9) =
      processImage (NPArray.r2 [[1, 2], [3, 4]]) true (some 0) := by
  have hwf : wellFormedNP (NPArray.r2 [[1, 2], [3, 4]]) := by
    refine ⟨by norm_num, by decide, ?_⟩
    intro r hr
    simp only [List.mem_cons, List.not_mem_nil, or_false] at hr
    rcases hr with rfl | rfl <;> rfl
  exact ⟨⟨by norm_num, by norm_num, hwf⟩,
    C10_tiny_sigma (NPArray.r2 [[1, 2], [3, 4]]) true 1e-9
      (by norm_num) (by norm_num) hwf⟩

/-- C8: For every rank-3 (normalized) input whose planes the kernel fits,
channel slice `c` of the filtering stage's output is the Separable Convolver
applied to channel slice `c` of that input alone, and replacing the input by
any other array of the same shape that agrees on channel `c` leaves the
filtered channel `c` unchanged — cross-channel noninterference of the
filtering stage. -/
theorem C8_channel_noninterference (t u : List (List (List ℝ))) (v : List ℝ)
    (c : ℕ) (hv : v ≠ [])
    (hrow : ∀ row ∈ t, row.length = width3 t)
    (hH : v.length ≤ t.length) (hW : v.length ≤ width3 t)
    (hrowu : ∀ row ∈ u, row.length = width3 u)
    (hHu : u.length = t.length) (hWu : width3 u = width3 t)
    (hCu : channels u = channels t)
    (hc : c < channels t)
    (hslice : channelSlice u c = channelSlice t c) :
    channelSlice (okOr (filterRank3 t v) []) c
      = applySeparableConv2d (channelSlice t c) v ∧
    channelSlice (okOr (filterRank3 u v) []) c
      = channelSlice (okOr (filterRank3 t v) []) c := by
  have h1 := filterRank3_slice t v c hv hrow hH hW hc
  have h2 := filterRank3_slice u v c hv hrowu (by omega) (by omega) (by omega)
  exact ⟨h1, by rw [h1, h2, hslice]⟩

/-- Witness for C8 at the concrete 1×1×2 inputs `[[[5, 6]]]` and `[[[5, 7]]]`
(agreeing on channel 0, differing on channel 1) with the kernel `[1]`. -/
theorem C8_channel_noninterference_witness :
    channelSlice [[[(5 : ℝ), 7]]] 0 = channelSlice [[[(5 : ℝ), 6]]] 0 ∧
    0 < channels [[[(5 : ℝ), 6]]] ∧
    channelSlice (okOr (filterRank3 [[[(5 : ℝ), 6]]] [1]) []) 0
      = applySeparableConv2d (channelSlice [[[(5 : ℝ), 6]]] 0) [1] ∧
    channelSlice (okOr (filterRank3 [[[(5 : ℝ), 7]]] [1]) []) 0
      = channelSlice (okOr (filterRank3 [[[(5 : ℝ), 6]]] [1]) []) 0 := by
  have hrow : ∀ row ∈ [[[(5 : ℝ), 6]]], row.length = width3 [[[(5 : ℝ), 6]]] := by
    intro row hr
    simp only [List.mem_singleton] at hr
    subst hr
    rfl
  have hrowu : ∀ row ∈ [[[(5 : ℝ), 7]]], row.length = width3 [[[(5 : ℝ), 7]]] := by
    intro row hr
    simp only [List.mem_singleton] at hr
    subst hr
    rfl
  have h := C8_channel_noninterference [[[(5 : ℝ), 6]]] [[[(5 : ℝ), 7]]] [1] 0
    (by simp) hrow (by simp) (by simp [width3]) hrowu rfl rfl rfl
    (by simp [channels]) rfl
  exact ⟨rfl, by simp [channels], h.1, h.2⟩

/-- C4 (amended): For every non-constant (hence all-finite, in the real-number
embedding) valid-rank input, calling the pipeline with `normalize=True` and
with filtering skipped (`filter_sigma` absent or zero) yields an output whose
minimum is exactly 0 and whose maximum is exactly 1. -/
theorem C4_normalized_extremes (img : NPArray) (σopt : Option ℝ)
    (hnd : img.ndim = 2 ∨ img.ndim = 3)
    (hσ : σopt = none ∨ σopt = some 0)
    (x y : ℝ) (hx : x ∈ flattenNP img) (hy : y ∈ flattenNP img) (hxy : x ≠ y) :
    listMin (resultFlatten (processImage img true σopt)) = 0 ∧
    listMax (resultFlatten (processImage img true σopt)) = 1 := by
  have h2 : ¬(img.ndim ≠ 2 ∧ img.ndim ≠ 3) := by tauto
  have hσ0 : σopt.getD 0 = 0 := by rcases hσ with rfl | rfl <;> rfl
  rw [processImage_skip img true σopt h2 hσ0, if_pos rfl]
  show listMin (flattenNP (normalizeArr img)) = 0 ∧
    listMax (flattenNP (normalizeArr img)) = 1
  have hlt : listMin (flattenNP img) < listMax (flattenNP img) :=
    listMin_lt_listMax (flattenNP img) x y hx hy hxy
  have hd : 0 < listMax (flattenNP img) - listMin (flattenNP img) := sub_pos.mpr hlt
  rw [normalizeArr_rescale img hlt, flattenNP_mapNP]
  have hne : flattenNP img ≠ [] := List.ne_nil_of_mem hx
  have hf : Monotone (fun v => (v - listMin (flattenNP img)) /
      (listMax (flattenNP img) - listMin (flattenNP img))) := by
    intro u w huw
    exact (div_le_div_iff_of_pos_right hd).mpr (sub_le_sub_right huw _)
  rw [listMin_map_mono _ hf _ hne, listMax_map_mono _ hf _ hne]
  constructor
  · rw [sub_self, zero_div]
  · exact div_self (ne_of_gt hd)

/-- Witness for C4 (amended) at the concrete input `[[0, 1]]` with
`filter_sigma` absent. -/
theorem C4_normalized_extremes_witness :
    ((NPArray.r2 [[0, 1]]).ndim = 2 ∨ (NPArray.r2 [[0, 1]]).ndim = 3) ∧
    (0 : ℝ) ∈ flattenNP (NPArray.r2 [[0, 1]]) ∧
    (1 : ℝ) ∈ flattenNP (NPArray.r2 [[0, 1]]) ∧ (0 : ℝ) ≠ 1 ∧
    listMin (resultFlatten (processImage (NPArray.r2 [[0, 1]]) true none)) = 0 ∧
    listMax (resultFlatten (processImage (NPArray.r2 [[0, 1]]) true none)) = 1 := by
  have hx : (0 : ℝ) ∈ flattenNP (NPArray.r2 [[0, 1]]) := by
    show (0 : ℝ) ∈ [0, 1]
    simp
  have hy : (1 : ℝ) ∈ flattenNP (NPArray.r2 [[0, 1]]) := by
    show (1 : ℝ) ∈ [0, 1]
    simp
  have h := C4_normalized_extremes (NPArray.r2 [[0, 1]]) none (Or.inl rfl)
    (Or.inl rfl) 0 1 hx hy (by norm_num)
  exact ⟨Or.inl rfl, hx, hy, by norm_num, h.1, h.2⟩

/-! ### Concrete 3-tap convolution evaluation (for the C4 counterexample) -/

lemma getZ_cons_zero (a : ℝ) (l : List ℝ) : getZ (a :: l) 0 = a := by
  simp [getZ]

lemma getZ_neg (l : List ℝ) (i : ℤ) (h : i < 0) : getZ l i = 0 := by
  unfold getZ
  rw [if_neg (not_le.mpr h)]

lemma getZ_cons_succ (a : ℝ) (l : List ℝ) (i : ℤ) (h : 0 ≤ i) :
    getZ (a :: l) (i + 1) = getZ l i := by
  unfold getZ
  rw [if_pos (by omega), if_pos h]
  have ht : (i + 1).toNat = i.toNat + 1 := by omega
  rw [ht]
  rfl

lemma getZ_nil (i : ℤ) : getZ [] i = 0 := by
  unfold getZ
  split <;> simp [List.getD]

lemma getZ3_zero (x y z : ℝ) : getZ [x, y, z] 0 = x := getZ_cons_zero x [y, z]

lemma getZ3_one (x y z : ℝ) : getZ [x, y, z] 1 = y := by
  rw [show (1 : ℤ) = 0 + 1 by ring, getZ_cons_succ x [y, z] 0 le_rfl, getZ_cons_zero]

lemma getZ3_two (x y z : ℝ) : getZ [x, y, z] 2 = z := by
  rw [show (2 : ℤ) = 1 + 1 by ring, getZ_cons_succ x [y, z] 1 (by norm_num),
    show (1 : ℤ) = 0 + 1 by ring, getZ_cons_succ y [z] 0 le_rfl, getZ_cons_zero]

lemma getZ3_three (x y z : ℝ) : getZ [x, y, z] 3 = 0 := by
  rw [show (3 : ℤ) = 2 + 1 by ring, getZ_cons_succ x [y, z] 2 (by norm_num),
    show (2 : ℤ) = 1 + 1 by ring, getZ_cons_succ y [z] 1 (by norm_num),
    show (1 : ℤ) = 0 + 1 by ring, getZ_cons_succ z [] 0 le_rfl, getZ_nil]

lemma getZ3_negone (x y z : ℝ) : getZ [x, y, z] (-1) = 0 :=
  getZ_neg [x, y, z] (-1) (by norm_num)

lemma convSame3 (x y z p q r : ℝ) :
    convSame [x, y, z] [p, q, r] =
      [q * x + p * y, r * x + q * y + p * z, r * y + q * z] := by
  unfold convSame
  rw [show max ([x, y, z] : List ℝ).length ([p, q, r] : List ℝ).length = 3 by simp]
  rw [show List.range 3 = [0, 1, 2] from rfl]
  simp only [List.map_cons, List.map_nil]
  unfold convSameElem
  rw [show sameStart ([x, y, z] : List ℝ).length ([p, q, r] : List ℝ).length = 1 by
    simp [sameStart]]
  rw [show ([p, q, r] : List ℝ).length = 3 from rfl]
  simp only [Finset.sum_range_succ, Finset.sum_range_one, List.getD_cons_zero,
    List.getD_cons_succ]
  norm_num
  rw [getZ3_zero, getZ3_one, getZ3_two, getZ3_three, getZ3_negone]
  refine ⟨by ring, by ring, by ring⟩

lemma convSameElem3_eval (x y z p q r : ℝ) (i : ℕ) (hi : i < 3) :
    convSameElem [x, y, z] [p, q, r] i =
      [q * x + p * y, r * x + q * y + p * z, r * y + q * z].getD i 0 := by
  have h := congrArg (fun l => l.getD i 0) (convSame3 x y z p q r)
  simp only at h
  rw [← h]
  unfold convSame
  rw [show max ([x, y, z] : List ℝ).length ([p, q, r] : List ℝ).length = 3 by simp]
  rw [getD_range_map _ 0 3 i hi]

lemma delta_blur (a b : ℝ) :
    applySeparableConv2d [[0, 0, 0], [0, 1, 0], [0, 0, 0]] [a, b, a] =
      [[a * a, a * b, a * a], [b * a, b * b, b * a], [a * a, a * b, a * a]] := by
  unfold applySeparableConv2d
  have hrows : ([[0, 0, 0], [0, 1, 0], [0, 0, 0]] : List (List ℝ)).map
      (fun r => convSame r [a, b, a]) = [[0, 0, 0], [a, b, a], [0, 0, 0]] := by
    simp only [List.map_cons, List.map_nil, convSame3]
    norm_num
  rw [hrows]
  unfold convAxis0
  rw [show max ([[0, 0, 0], [a, b, a], [0, 0, 0]] : List (List ℝ)).length
    ([a, b, a] : List ℝ).length = 3 by simp]
  rw [show width [[0, 0, 0], [a, b, a], [0, 0, 0]] = 3 from rfl]
  rw [show List.range 3 = [0, 1, 2] from rfl]
  simp only [List.map_cons, List.map_nil]
  rw [show col [[0, 0, 0], [a, b, a], [0, 0, 0]] 0 = [0, a, 0] from rfl]
  rw [show col [[0, 0, 0], [a, b, a], [0, 0, 0]] 1 = [0, b, 0] from rfl]
  rw [show col [[0, 0, 0], [a, b, a], [0, 0, 0]] 2 = [0, a, 0] from rfl]
  rw [convSameElem3_eval 0 a 0 a b a 0 (by norm_num),
    convSameElem3_eval 0 b 0 a b a 0 (by norm_num),
    convSameElem3_eval 0 a 0 a b a 1 (by norm_num),
    convSameElem3_eval 0 b 0 a b a 1 (by norm_num),
    convSameElem3_eval 0 a 0 a b a 2 (by norm_num),
    convSameElem3_eval 0 b 0 a b a 2 (by norm_num)]
  norm_num

lemma delta_norm :
    normalizeArr (NPArray.r2 [[0, 0, 0], [0, 1, 0], [0, 0, 0]]) =
      NPArray.r2 [[0, 0, 0], [0, 1, 0], [0, 0, 0]] := by
  have hmn : listMin (flattenNP (NPArray.r2 [[0, 0, 0], [0, 1, 0], [0, 0, 0]])) = 0 := by
    show listMin [0, 0, 0, 0, 1, 0, 0, 0, 0] = 0
    unfold listMin
    norm_num [min_def]
  have hmx : listMax (flattenNP (NPArray.r2 [[0, 0, 0], [0, 1, 0], [0, 0, 0]])) = 1 := by
    show listMax [0, 0, 0, 0, 1, 0, 0, 0, 0] = 1
    unfold listMax
    norm_num [max_def]
  rw [normalizeArr_rescale _ (by rw [hmn, hmx]; norm_num), hmn, hmx]
  show NPArray.r2 (([[0, 0, 0], [0, 1, 0], [0, 0, 0]] : List (List ℝ)).map
    (List.map (fun v => (v - 0) / (1 - 0)))) = _
  norm_num

lemma kernel_tenth_form :
    ∃ a b : ℝ, 0 < a ∧ 0 < b ∧ gaussianKernel1d (1 / 10) = [a, b, a] := by
  have hlen := kernel_tenth_length
  obtain ⟨x, y, z, hxyz⟩ := List.length_eq_three.mp hlen
  have hsym := gaussianKernel1d_symm (1 / 10) 0 (by rw [hlen]; norm_num)
  rw [hlen] at hsym
  have hx : (gaussianKernel1d (1 / 10)).getD 0 0 = x := by rw [hxyz]; rfl
  have hz : (gaussianKernel1d (1 / 10)).getD (3 - 1 - 0) 0 = z := by rw [hxyz]; rfl
  have hxz : x = z := by rw [← hx, ← hz]; exact hsym
  refine ⟨x, y, ?_, ?_, ?_⟩
  · apply gaussianKernel1d_mem_pos (1 / 10)
    rw [hxyz]
    simp
  · apply gaussianKernel1d_mem_pos (1 / 10)
    rw [hxyz]
    simp
  · rw [hxyz, ← hxz]

/-- C4 counterexample: at the concrete non-constant, all-finite 3×3 input with
`normalize=True` and the valid positive `filter_sigma = 0.1`, every output
sample of the pipeline is a product of two strictly positive Gaussian kernel
weights, so the output's minimum is strictly positive — not 0.0.  The claim
as stated (for every call with `normalize=True`, any sigma) is false, because
Gaussian filtering after normalization destroys the extremes. -/
theorem C4_counterexample :
    listMin (resultFlatten (processImage
      (NPArray.r2 [[0, 0, 0], [0, 1, 0], [0, 0, 0]]) true (some (1 / 10)))) ≠ 0 := by
  have h2 : ¬((NPArray.r2 [[0, 0, 0], [0, 1, 0], [0, 0, 0]]).ndim ≠ 2 ∧
      (NPArray.r2 [[0, 0, 0], [0, 1, 0], [0, 0, 0]]).ndim ≠ 3) := by
    simp [NPArray.ndim]
  rw [processImage_filter _ _ _ h2 (by norm_num : (0 : ℝ) < 1 / 10)]
  rw [if_pos rfl, delta_norm]
  obtain ⟨a, b, ha, hb, hk⟩ := kernel_tenth_form
  show listMin (flattenNP (NPArray.r2 (applySeparableConv2d
    [[0, 0, 0], [0, 1, 0], [0, 0, 0]] (gaussianKernel1d (1 / 10))))) ≠ 0
  rw [hk, delta_blur a b]
  show listMin [a * a, a * b, a * a, b * a, b * b, b * a, a * a, a * b, a * a] ≠ 0
  have hpos : ∀ v ∈ [a * a, a * b, a * a, b * a, b * b, b * a, a * a, a * b, a * a],
      0 < v := by
    intro v hv
    simp only [List.mem_cons, List.not_mem_nil, or_false] at hv
    rcases hv with rfl | rfl | rfl | rfl | rfl | rfl | rfl | rfl | rfl
    exacts [mul_pos ha ha, mul_pos ha hb, mul_pos ha ha, mul_pos hb ha,
      mul_pos hb hb, mul_pos hb ha, mul_pos ha ha, mul_pos ha hb, mul_pos ha ha]
  exact ne_of_gt (listMin_pos _ (by simp) hpos)

end ImgProc
